import Mathlib

/-!
Formal model of the `TSMT$DataStats` TypeScript class (src/DataStats.ts) of
the TSDataStats repository, together with proofs about it.

Numbers are embedded as exact rationals (`ℚ`); results that the source
obtains through `Math.sqrt` live in `ℝ`.  JavaScript's `undefined` and `NaN`
are modelled by `Option ℚ` (`none` = non-numeric) where the source can
actually produce them.  The mutable fields of the class become an explicit
`State` record, and each getter of the class becomes a function
`State → value × State`.
-/

namespace DataStats

/-- Exact value of JavaScript's `Number.MAX_VALUE` = (2 - 2^(-52)) * 2^1023. -/
def jsMaxValue : ℚ := 2 ^ 1024 - 2 ^ 971

/-- Exact value of JavaScript's `Number.MIN_VALUE` = 2^(-1074), the smallest
positive double.  Note it is a tiny positive number, not the most negative
double. -/
def jsMinValue : ℚ := 1 / 2 ^ 1074

/-- The mutable fields of `TSMT$DataStats` (DataStats.ts lines 44-57): the
current sample, the six cached statistic values and their six invalidation
flags.  `_std` is real-valued because the source caches `Math.sqrt` results
there. -/
structure State where
  _data : List ℚ
  _mean : ℚ
  _std : ℝ
  _median : ℚ
  _mode : ℚ
  _min : ℚ
  _max : ℚ
  _minInvalidated : Bool
  _maxInvalidated : Bool
  _meanInvalidated : Bool
  _stdInvalidated : Bool
  _medianInvalidated : Bool
  _modeInvalidated : Bool

/-- The constructor (lines 59-75): empty sample, all cached values 0, all
flags invalidated. -/
def initState : State :=
  { _data := []
    _mean := 0
    _std := 0
    _median := 0
    _mode := 0
    _min := 0
    _max := 0
    _minInvalidated := true
    _maxInvalidated := true
    _meanInvalidated := true
    _stdInvalidated := true
    _medianInvalidated := true
    _modeInvalidated := true }

/-- Parity helper `isEven` (lines 84-87): `(n & 1) == 0`, i.e. evenness.
It is only ever applied to array lengths, hence `ℕ`. -/
def isEven (n : ℕ) : Bool := n % 2 == 0

/-- The `data` setter (lines 96-110).  `none` models an `undefined` or
`null` provider; both are rejected exactly like an empty array.  The
source's `dataProvider.slice()` defensive copy is the identity on the
list's content, so the stored sample is the input list itself.  A
successful assignment sets all six invalidation flags true. -/
def setData (dataProvider : Option (List ℚ)) (st : State) : State :=
  match dataProvider with
  | none => st
  | some l =>
    if l.length = 0 then st
    else
      { st with
        _data := l
        _minInvalidated := true
        _maxInvalidated := true
        _meanInvalidated := true
        _stdInvalidated := true
        _medianInvalidated := true
        _modeInvalidated := true }

/-- The `samples` getter (lines 117-120): the current sample length. -/
def samples (st : State) : ℕ := st._data.length

/-- The `min` getter (lines 127-150).  Size 0 returns 0.  When the flag is
set, a linear scan seeded with `Number.MAX_VALUE` recomputes `_min`; note
the source never clears `_minInvalidated`. -/
def min (st : State) : ℚ × State :=
  let n := st._data.length
  if n = 0 then (0, st)
  else if st._minInvalidated then
    let m := st._data.foldl (fun acc d => if d < acc then d else acc) jsMaxValue
    (m, { st with _min := m })
  else (st._min, st)

/-- The `max` getter (lines 157-180).  Size 0 returns 0.  When the flag is
set, a linear scan seeded with `Number.MIN_VALUE` (a tiny positive number)
recomputes `_max`; the source never clears `_maxInvalidated`. -/
def max (st : State) : ℚ × State :=
  let n := st._data.length
  if n = 0 then (0, st)
  else if st._maxInvalidated then
    let m := st._data.foldl (fun acc d => if d > acc then d else acc) jsMinValue
    (m, { st with _max := m })
  else (st._max, st)

/-- Sum of a sample exactly as the `mean` getter accumulates it: seed with
`data[0]` and add `data[1..]` left to right. -/
def sumFrom (l : List ℚ) : ℚ :=
  match l with
  | [] => 0
  | x :: xs => xs.foldl (· + ·) x

/-- The `mean` getter (lines 359-380).  With the flag set and a nonempty
sample it stores sum/n and clears the flag; with the flag set and an empty
sample it returns 0 early, leaving the flag untouched. -/
def mean (st : State) : ℚ × State :=
  if st._meanInvalidated then
    if st._data.length = 0 then (0, st)
    else
      let m := sumFrom st._data / (st._data.length : ℚ)
      (m, { st with _mean := m, _meanInvalidated := false })
  else (st._mean, st)

/-- Ascending insertion of one element into a sorted list; building block of
`sortAsc`. -/
def insertAsc (x : ℚ) : List ℚ → List ℚ
  | [] => [x]
  | y :: ys => if x ≤ y then x :: y :: ys else y :: insertAsc x ys

/-- Numeric ascending sort, the observable behaviour of the source's
`data.sort(function(a, b){return a-b})` on a copy of the sample.  (JS sort
with this comparator yields the ascending reordering; insertion sort
realizes the same function.) -/
def sortAsc (l : List ℚ) : List ℚ := l.foldr insertAsc []

/-- The `fiveNumbers` getter (lines 193-261): [min, Q1, median, Q3, max] by
recursive median splitting.  Size 0 gives [], size 1 five copies of the
datum.  Indexing uses `getD _ 0`; every index the source uses is in range,
so the default is never read. -/
def fiveNumbers (st : State) : List ℚ :=
  let n := st._data.length
  if n = 0 then []
  else if n = 1 then
    let d0 := st._data.getD 0 0
    [d0, d0, d0, d0, d0]
  else
    let data := sortAsc st._data
    let dataMin := data.getD 0 0
    let dataMax := data.getD (n - 1) 0
    let dataMed :=
      if isEven n then
        ((data.getD (n / 2 - 1) 0) + (data.getD (n / 2) 0)) / 2
      else data.getD ((n + 1) / 2 - 1) 0
    let lower :=
      if isEven n then data.take (n / 2)
      else data.take ((n + 1) / 2 - 1) ++ [dataMed]
    let upper :=
      if isEven n then data.drop (n / 2)
      else dataMed :: data.drop ((n + 1) / 2)
    let lowerQuartile :=
      let nl := lower.length
      if isEven nl then ((lower.getD (nl / 2 - 1) 0) + (lower.getD (nl / 2) 0)) / 2
      else lower.getD ((nl + 1) / 2 - 1) 0
    let upperQuartile :=
      let nu := upper.length
      if isEven nu then ((upper.getD (nu / 2 - 1) 0) + (upper.getD (nu / 2) 0)) / 2
      else upper.getD ((nu + 1) / 2 - 1) 0
    [dataMin, lowerQuartile, dataMed, upperQuartile, dataMax]

/-- A JavaScript numeric value in the quantile routine: `some q` is a finite
number, `none` stands for `undefined` (an array hole) or `NaN`.  Both
behave identically there: arithmetic involving them yields `NaN` and every
comparison with them is false. -/
abbrev JSVal := Option ℚ

/-- JS addition on possibly-non-numeric values. -/
def jsAdd : JSVal → JSVal → JSVal
  | some a, some b => some (a + b)
  | _, _ => none

/-- JS subtraction on possibly-non-numeric values. -/
def jsSub : JSVal → JSVal → JSVal
  | some a, some b => some (a - b)
  | _, _ => none

/-- JS multiplication on possibly-non-numeric values. -/
def jsMul : JSVal → JSVal → JSVal
  | some a, some b => some (a * b)
  | _, _ => none

/-- JS division on possibly-non-numeric values.  A zero divisor yields a
non-finite result (`Infinity` or `NaN`), modelled `none`; the quantile code
never hits that case on a finite path. -/
def jsDiv : JSVal → JSVal → JSVal
  | some a, some b => if b = 0 then none else some (a / b)
  | _, _ => none

/-- Read `l[i]` of a JS array: out-of-range reads give `undefined`. -/
def jsIdx (l : List JSVal) (i : ℕ) : JSVal := (l.get? i).getD none

/-- Write `l[i] = v` on a JS array: writing past the end pads the skipped
slots with holes (`undefined`). -/
def jsWrite (l : List JSVal) (i : ℕ) (v : JSVal) : List JSVal :=
  if i < l.length then l.set i v
  else l ++ List.replicate (i - l.length) none ++ [v]

/-- Test `Math.abs(a - q) < eps` as JS evaluates it: false whenever the
difference is `NaN`. -/
def jsAbsLt (a : JSVal) (eps : ℚ) : Bool :=
  match a with
  | some x => decide (|x| < eps)
  | none => false

/-- The reference CDF position array `f` of `getQuantile` (lines 303-311):
`f` starts as `new Array<number>(0.0)` — in JavaScript that is an EMPTY
array of length 0 (0.0 is a valid length), not `[0.0]` — then the loop
writes `f[i] = f[i-1] + n1` for i = 1..n-2 (so the read of the hole `f[0]`
makes every written entry `NaN`), and `1.0` is pushed at the end. -/
def quantFractions (n : ℕ) (n1 : ℚ) : List JSVal :=
  (List.range' 1 (n - 2)).foldl
    (fun f i => jsWrite f i (jsAdd (jsIdx f (i - 1)) (some n1))) [] ++ [some 1]

/-- One interior quantile level of `getQuantile` (lines 326-347), given the
lower index `r = ⌊q·(n-1)⌋` computed at the call site: take `data[r]`
exactly when `|f[r] - q| < 0.001`, otherwise interpolate linearly between
`data[r]` and `data[r+1]` with parameter `t = (q - f[r]) / (f[r+1] - f[r])`. -/
def quantLevel (f : List JSVal) (data : List ℚ) (r : ℕ) (q : ℚ) : JSVal :=
  if jsAbsLt (jsSub (jsIdx f r) (some q)) (1 / 1000) then some (data.getD r 0)
  else
    let t := jsDiv (jsSub (some q) (jsIdx f r)) (jsSub (jsIdx f (r + 1)) (jsIdx f r))
    jsAdd (jsMul (jsSub (some 1) t) (some (data.getD r 0)))
          (jsMul t (some (data.getD (r + 1) 0)))

/-- Coercion of the quantile fraction (line 293): out-of-range input is
replaced by 0.25 (a `NaN` argument, impossible for a `ℚ` input, is replaced
the same way). -/
def coerceP (p0 : ℚ) : ℚ := if p0 < 1 / 100 ∨ p0 > 99 / 100 then 1 / 4 else p0

/-- The `getQuantile` method (lines 291-352).  Fewer than 2 samples give [].
Otherwise the `nQuant - 1` interior levels q = p, 2p, ... are walked over
the sorted sample with the `f` array of `quantFractions`, the true minimum
prepended and the true maximum appended. -/
def getQuantile (p0 : ℚ) (st : State) : List JSVal :=
  let p := coerceP p0
  let n := st._data.length
  let nQuant := (⌊(1 : ℚ) / p⌋).toNat
  if n < 2 then []
  else
    let f := quantFractions n (1 / ((n : ℚ) - 1))
    let data := sortAsc st._data
    let out := (List.range (nQuant - 1)).foldl
      (fun acc _ =>
        (acc.1 + p,
          acc.2 ++ [quantLevel f data ((⌊(acc.1 + p) * ((n : ℚ) - 1)⌋).toNat) (acc.1 + p)]))
      (0, [some (data.getD 0 0)])
    out.2 ++ [some (data.getD (data.length - 1) 0)]

/-- One pass of the Welford loop body (lines 451-457), acting on the state
(i, m, s): `d = data[i] - m_old; m = m + d/(i+1); s = s + (data[i] - m)*d`. -/
def welfordStep (acc : ℕ × ℚ × ℚ) (x : ℚ) : ℕ × ℚ × ℚ :=
  let i := acc.1
  let m_old := acc.2.1
  let s := acc.2.2
  let d := x - m_old
  let m := m_old + d / ((i : ℚ) + 1)
  (i + 1, m, s + (x - m) * d)

/-- The accumulated sum of squared deviations `s` after the Welford loop of
the `std` getter. -/
def welfordS (l : List ℚ) : ℚ := (l.foldl welfordStep (0, 0, 0)).2.2

/-- The `std` getter (lines 435-464).  With the flag set, a singleton sample
returns 0 early (flag untouched); otherwise Welford's loop runs and
`sqrt(s/(n-1))` is cached and the flag cleared.  (For the empty sample the
source computes `sqrt(0/(-1)) = -0`, equal to 0.) -/
noncomputable def std (st : State) : ℝ × State :=
  if st._stdInvalidated then
    let n := st._data.length
    if n = 1 then (0, st)
    else
      let v : ℝ := Real.sqrt ((welfordS st._data : ℝ) / ((n : ℝ) - 1))
      (v, { st with _std := v, _stdInvalidated := false })
  else (st._std, st)

/-- The `median` getter (lines 484-514): sort ascending, middle element for
odd length, average of the two middle elements for even length. -/
def median (st : State) : ℚ × State :=
  if st._medianInvalidated then
    let n := st._data.length
    if n = 0 then (0, st)
    else
      let tmp := sortAsc st._data
      let med :=
        if isEven n then ((tmp.getD (n / 2 - 1) 0) + (tmp.getD (n / 2) 0)) / 2
        else tmp.getD ((n + 1) / 2 - 1) 0
      (med, { st with _median := med, _medianInvalidated := false })
  else (st._median, st)

/-- Truncation toward zero: the value of JavaScript `parseInt` applied to
the decimal string of a number printed in plain (non-exponential) decimal
notation, as every key in the mode table of the test-scale data is. -/
def jsTrunc (v : ℚ) : ℤ := if 0 ≤ v then ⌊v⌋ else -⌊-v⌋

/-- Whether the stringified value is a JavaScript array-index key: the
canonical decimal string of an integer in [0, 2^32 - 2].  Such keys are
enumerated first, in ascending numeric order, by `for..in`. -/
def isArrayIndex (v : ℚ) : Bool :=
  v.den == 1 && decide (0 ≤ v.num) && decide (v.num ≤ 2 ^ 32 - 2)

/-- One step of the mode counting loop (lines 534-542): bump the count of a
known key, or append a fresh key with count 1.  Keys are the (injectively)
stringified sample values, modelled by the values themselves. -/
def countInsert (h : List (ℚ × ℕ)) (x : ℚ) : List (ℚ × ℕ) :=
  if h.any (fun p => p.1 == x) then
    h.map (fun p => if p.1 = x then (p.1, p.2 + 1) else p)
  else h ++ [(x, 1)]

/-- The mode count table in first-insertion order. -/
def buildHash (l : List ℚ) : List (ℚ × ℕ) := l.foldl countInsert []

/-- Ascending insertion of one table entry by key; building block of
`sortPairs`. -/
def insertPairAsc (x : ℚ × ℕ) : List (ℚ × ℕ) → List (ℚ × ℕ)
  | [] => [x]
  | y :: ys => if x.1 ≤ y.1 then x :: y :: ys else y :: insertPairAsc x ys

/-- Sort table entries by key, ascending. -/
def sortPairs (l : List (ℚ × ℕ)) : List (ℚ × ℕ) := l.foldr insertPairAsc []

/-- The order in which `for (value in hash)` (line 546) enumerates the count
table: array-index keys first in ascending numeric order, then the
remaining keys in first-insertion order. -/
def iterOrder (h : List (ℚ × ℕ)) : List (ℚ × ℕ) :=
  sortPairs (h.filter (fun p => isArrayIndex p.1)) ++
    h.filter (fun p => !isArrayIndex p.1)

/-- One step of the mode selection loop (lines 544-553): keep the running
best (count, mode), replacing it when a strictly greater count appears; the
recorded mode is `parseInt` of the key. -/
def scanStep (acc : ℤ × ℚ) (p : ℚ × ℕ) : ℤ × ℚ :=
  if (p.2 : ℤ) > acc.1 then ((p.2 : ℤ), ((jsTrunc p.1 : ℤ) : ℚ)) else acc

/-- The value the mode loop leaves in `this._mode`, starting from count -1
and the previous `_mode`. -/
def modeOf (prev : ℚ) (l : List ℚ) : ℚ :=
  ((iterOrder (buildHash l)).foldl scanStep (-1, prev)).2

/-- The `mode` getter (lines 521-559).  Size 0 returns 0 early (flag
untouched); otherwise the counting and selection loops run, the result is
cached and the flag cleared. -/
def mode (st : State) : ℚ × State :=
  if st._modeInvalidated then
    if st._data.length = 0 then (0, st)
    else
      let m := modeOf st._mode st._data
      (m, { st with _mode := m, _modeInvalidated := false })
  else (st._mode, st)

/-- The `skewness` getter (lines 592-615): 0 for n < 3, else the
bias-adjusted third standardized moment, reading `this.mean` and `this.std`
through their caching getters. -/
noncomputable def skewness (st : State) : ℝ × State :=
  let n := st._data.length
  if n < 3 then (0, st)
  else
    let mult : ℝ := Real.sqrt ((n : ℝ) * ((n : ℝ) - 1)) / ((n : ℝ) - 2)
    let u := (mean st).1
    let st1 := (mean st).2
    let s := (std st1).1
    let st2 := (std st1).2
    let s1 : ℚ := st2._data.foldl (fun acc x => acc + (x - u) * (x - u) * (x - u)) 0
    (mult * (((s1 : ℝ) / (n : ℝ)) / (s * s * s)), st2)

/-- The `kurtosis` getter (lines 622-648): 0 for n < 4, else the
bias-corrected excess kurtosis `a - b`. -/
noncomputable def kurtosis (st : State) : ℝ × State :=
  let n := st._data.length
  if n < 4 then (0, st)
  else
    let u := (mean st).1
    let st1 := (mean st).2
    let s := (std st1).1
    let st2 := (std st1).2
    let s1 : ℚ :=
      st2._data.foldl (fun acc x => acc + (x - u) * (x - u) * (x - u) * (x - u)) 0
    let n1 : ℝ := (n : ℝ) - 1
    let n2 : ℝ := (n : ℝ) - 2
    let n3 : ℝ := (n : ℝ) - 3
    let a : ℝ := ((n : ℝ) * ((n : ℝ) + 1) * (s1 : ℝ)) / (n1 * n2 * n3 * s * s * s * s)
    let b : ℝ := 3 * n1 * n1 / (n2 * n3)
    (a - b, st2)

/-- The `covariance` method (lines 659-689).  Absent/null inputs (`none`)
or fewer than 2 / mismatched lengths return 0 with the state untouched.
Otherwise each series is routed through the `data` setter and the cached
`mean` getter (leaving the store holding `y`), and the sum of centered
products is divided by n-1. -/
def covariance (x y : Option (List ℚ)) (st : State) : ℚ × State :=
  match x, y with
  | some a, some b =>
    let n := a.length
    if n < 2 ∨ n ≠ b.length then (0, st)
    else
      let st1 := setData (some a) st
      let xmean := (mean st1).1
      let st2 := (mean st1).2
      let st3 := setData (some b) st2
      let ymean := (mean st3).1
      let st4 := (mean st3).2
      let s := (a.zip b).foldl (fun acc p => acc + (p.1 - xmean) * (p.2 - ymean)) 0
      (s / ((n : ℚ) - 1), st4)
  | _, _ => (0, st)

/-- The `correlation` method (lines 700-718).  Same validity rule as
`covariance`; on valid input it reads both standard deviations through the
assign-then-read pattern and divides the covariance by their product. -/
noncomputable def correlation (x y : Option (List ℚ)) (st : State) : ℝ × State :=
  match x, y with
  | some a, some b =>
    let n := a.length
    if n < 2 ∨ n ≠ b.length then (0, st)
    else
      let st1 := setData (some a) st
      let xs := (std st1).1
      let st2 := (std st1).2
      let st3 := setData (some b) st2
      let ys := (std st3).1
      let st4 := (std st3).2
      let c := (covariance (some a) (some b) st4).1
      let st5 := (covariance (some a) (some b) st4).2
      (((c : ℝ)) / (xs * ys), st5)
  | _, _ => (0, st)

/-- Welford recurrence written from the claim's own words, for comparison
with the loop embedded in `welfordS`: starting from m = 0, s = 0, for each
element x_i (0-indexed) compute d = x_i - m_prev, m = m_prev + d/(i+1),
s = s + (x_i - m) * d. -/
def specWelford : List ℚ → ℕ → ℚ → ℚ → ℚ
  | [], _, _, s => s
  | x :: xs, i, m_prev, s =>
    let d := x - m_prev
    let m := m_prev + d / ((i : ℚ) + 1)
    specWelford xs (i + 1) m (s + (x - m) * d)

/-- The final sum of squared deviations of the claim's recurrence. -/
def specWelfordS (l : List ℚ) : ℚ := specWelford l 0 0 0

/-- The first entry of a count table whose count is maximal: the entry whose
count is greater than or equal to every later count.  On a tie for the
maximum, the earliest entry wins. -/
def firstMax : List (ℚ × ℕ) → Option (ℚ × ℕ)
  | [] => none
  | p :: t => if ∀ r ∈ t, r.2 ≤ p.2 then some p else firstMax t

/-- The first entry whose count both exceeds the threshold `c` and is
maximal among the remaining entries; the generalization of `firstMax` that
the selection-loop induction tracks. -/
def firstMaxAbove (c : ℤ) : List (ℚ × ℕ) → Option (ℚ × ℕ)
  | [] => none
  | p :: t =>
    if c < (p.2 : ℤ) ∧ ∀ r ∈ t, r.2 ≤ p.2 then some p
    else firstMaxAbove (Max.max c (p.2 : ℤ)) t

section Lemmas

/-- The `mean` getter never changes the stored sample. -/
theorem mean_preserves_data (st : State) : ((mean st).2)._data = st._data := by
  simp only [mean]
  split
  · split <;> rfl
  · rfl

/-- The `std` getter never changes the stored sample. -/
theorem std_preserves_data (st : State) : ((std st).2)._data = st._data := by
  simp only [std]
  split
  · split <;> rfl
  · rfl

/-- Assigning a nonempty list stores exactly that list. -/
theorem setData_some_data (l : List ℚ) (hl : l ≠ []) (st : State) :
    (setData (some l) st)._data = l := by
  simp [setData, List.length_eq_zero, hl]

/-- Assigning a nonempty list leaves the mean flag invalidated, so the next
`mean` read computes the arithmetic mean of that list. -/
theorem mean_of_setData (l : List ℚ) (hl : l ≠ []) (st : State) :
    (mean (setData (some l) st)).1 = sumFrom l / (l.length : ℚ) := by
  simp [setData, mean, List.length_eq_zero, hl]

end Lemmas

/-- C2: a `data` assignment of an absent (`undefined`/`null`) or empty
input is a no-op — the whole state, hence `samples`, is unchanged — and a
nonempty input becomes (a copy of) the stored sample, with `samples` equal
to its length afterwards. -/
theorem data_assignment_sampleCount :
    (∀ st : State, setData none st = st)
  ∧ (∀ st : State, setData (some []) st = st)
  ∧ (∀ (st : State) (l : List ℚ), l ≠ [] →
      (setData (some l) st)._data = l ∧ samples (setData (some l) st) = l.length) := by
  refine ⟨fun st => rfl, fun st => rfl, fun st l hl => ⟨setData_some_data l hl st, ?_⟩⟩
  simp [samples, setData_some_data l hl st]

/-- C2 witness: the contract evaluated at the empty and at a two-element
assignment. -/
theorem data_assignment_sampleCount_witness :
    setData none initState = initState
  ∧ setData (some []) initState = initState
  ∧ (setData (some [1, 2]) initState)._data = [1, 2]
  ∧ samples (setData (some [1, 2]) initState) = 2 := by
  refine ⟨data_assignment_sampleCount.1 initState,
    data_assignment_sampleCount.2.1 initState, ?_, ?_⟩
  · exact (data_assignment_sampleCount.2.2 initState [1, 2] (by simp)).1
  · exact (data_assignment_sampleCount.2.2 initState [1, 2] (by simp)).2

/-- C7: a `covariance` or `correlation` call on valid inputs (equal lengths,
at least 2 samples) leaves the engine's stored sample holding `y` when the
call returns. -/
theorem covariance_correlation_store_y (x y : List ℚ) (st : State)
    (h2 : 2 ≤ x.length) (hlen : x.length = y.length) :
    ((covariance (some x) (some y) st).2)._data = y
  ∧ ((correlation (some x) (some y) st).2)._data = y := by
  have hy : y ≠ [] := by
    intro hnil
    rw [hnil] at hlen
    simp only [List.length_nil] at hlen
    omega
  have hguard : ¬(x.length < 2 ∨ x.length ≠ y.length) := by omega
  have hcov : ∀ su : State, ((covariance (some x) (some y) su).2)._data = y := by
    intro su
    simp only [covariance]
    rw [if_neg hguard]
    simp only [mean_preserves_data]
    exact setData_some_data y hy _
  refine ⟨hcov st, ?_⟩
  simp only [correlation]
  rw [if_neg hguard]
  simp only []
  exact hcov _

/-- C7 witness: the side effect evaluated at x = [1, 2], y = [3, 4]. -/
theorem covariance_correlation_store_y_witness :
    ((covariance (some [1, 2]) (some [3, 4]) initState).2)._data = [3, 4]
  ∧ ((correlation (some [1, 2]) (some [3, 4]) initState).2)._data = [3, 4] :=
  covariance_correlation_store_y [1, 2] [3, 4] initState (by simp) (by simp)

/-- C9: an invalid `covariance` or `correlation` call — either input absent,
lengths unequal, or fewer than 2 samples — returns 0 and leaves the entire
engine state (sample, caches and flags) exactly as it was. -/
theorem covariance_correlation_invalid_frame
    (x y : Option (List ℚ)) (st : State)
    (h : ∀ a b, x = some a → y = some b → a.length < 2 ∨ a.length ≠ b.length) :
    covariance x y st = (0, st) ∧ correlation x y st = (0, st) := by
  cases x with
  | none => exact ⟨rfl, rfl⟩
  | some a =>
    cases y with
    | none => exact ⟨rfl, rfl⟩
    | some b =>
      have hv := h a b rfl rfl
      constructor
      · simp only [covariance]
        rw [if_pos hv]
      · simp only [correlation]
        rw [if_pos hv]

/-- C9 witness: a null first input and a length-mismatched pair, both on the
fresh engine state. -/
theorem covariance_correlation_invalid_frame_witness :
    (covariance none (some [1, 2]) initState = (0, initState)
      ∧ correlation none (some [1, 2]) initState = (0, initState))
  ∧ (covariance (some [1]) (some [1, 2]) initState = (0, initState)
      ∧ correlation (some [1]) (some [1, 2]) initState = (0, initState)) :=
  ⟨covariance_correlation_invalid_frame none (some [1, 2]) initState
      (fun a b ha _ => by cases ha),
    covariance_correlation_invalid_frame (some [1]) (some [1, 2]) initState
      (fun a b ha hb => by
        cases ha
        cases hb
        simp)⟩

/-- C8: operations on inputs of insufficient size return their documented
neutral value (and, being total functions, never throw): quantiles give []
for n < 2, skewness 0 for n < 3, kurtosis 0 for n < 4, and covariance and
correlation 0 for mismatched lengths or length < 2. -/
theorem neutral_on_insufficient :
    (∀ (st : State) (p : ℚ), st._data.length < 2 → getQuantile p st = [])
  ∧ (∀ st : State, st._data.length < 3 → (skewness st).1 = 0)
  ∧ (∀ st : State, st._data.length < 4 → (kurtosis st).1 = 0)
  ∧ (∀ (x y : List ℚ) (st : State), x.length ≠ y.length ∨ x.length < 2 →
      (covariance (some x) (some y) st).1 = 0
        ∧ (correlation (some x) (some y) st).1 = 0) := by
  refine ⟨?_, ?_, ?_, ?_⟩
  · intro st p h
    simp only [getQuantile]
    rw [if_pos h]
  · intro st h
    simp only [skewness]
    rw [if_pos h]
  · intro st h
    simp only [kurtosis]
    rw [if_pos h]
  · intro x y st h
    have hv : x.length < 2 ∨ x.length ≠ y.length := by omega
    constructor
    · simp only [covariance]
      rw [if_pos hv]
    · simp only [correlation]
      rw [if_pos hv]

/-- C8 witness: the empty sample (too small for every statistic) and a
length-mismatched covariance/correlation pair. -/
theorem neutral_on_insufficient_witness :
    getQuantile (1 / 4) initState = []
  ∧ (skewness initState).1 = 0
  ∧ (kurtosis initState).1 = 0
  ∧ (covariance (some [1]) (some [1, 2]) initState).1 = 0
  ∧ (correlation (some [1]) (some [1, 2]) initState).1 = 0 :=
  ⟨neutral_on_insufficient.1 initState (1 / 4) (by simp [initState]),
    neutral_on_insufficient.2.1 initState (by simp [initState]),
    neutral_on_insufficient.2.2.1 initState (by simp [initState]),
    (neutral_on_insufficient.2.2.2 [1] [1, 2] initState (by simp)).1,
    (neutral_on_insufficient.2.2.2 [1] [1, 2] initState (by simp)).2⟩

/-- The embedded Welford loop agrees with the claim's recurrence from any
starting index and accumulators. -/
theorem welford_foldl_eq_spec (l : List ℚ) :
    ∀ (i : ℕ) (m s : ℚ), (List.foldl welfordStep (i, m, s) l).2.2 = specWelford l i m s := by
  induction l with
  | nil => intro i m s; rfl
  | cons x xs ih =>
    intro i m s
    simp only [List.foldl_cons, welfordStep, specWelford]
    exact ih _ _ _

/-- C6: with its cache invalidated, `std` returns exactly 0 for a sample of
size 1 (no division by zero) and otherwise the square root of s/(n-1) where
s follows Welford's single-pass recurrence d = x_i - m_prev,
m = m_prev + d/(i+1), s = s + (x_i - m) * d from m = 0, s = 0. -/
theorem std_welford (st : State) (h : st._stdInvalidated = true) :
    (std st).1 =
      if st._data.length = 1 then 0
      else Real.sqrt ((specWelfordS st._data : ℝ) / ((st._data.length : ℝ) - 1)) := by
  unfold std
  rw [if_pos h]
  split
  case isTrue h1 => rw [if_pos h1]
  case isFalse h1 =>
    rw [if_neg h1]
    simp only [welfordS, welford_foldl_eq_spec, specWelfordS]

/-- C6 witness: the Welford form of `std` evaluated on a freshly assigned
two-element sample. -/
theorem std_welford_witness :
    (std (setData (some [1, 2]) initState)).1 =
      if (setData (some [1, 2]) initState)._data.length = 1 then 0
      else Real.sqrt ((specWelfordS (setData (some [1, 2]) initState)._data : ℝ) /
        (((setData (some [1, 2]) initState)._data.length : ℝ) - 1)) :=
  std_welford _ rfl

/-- The accumulated sum of centered products is symmetric in the two series,
in exact arithmetic. -/
theorem zip_centered_symm (a : List ℚ) :
    ∀ (b : List ℚ) (ma mb s : ℚ),
      List.foldl (fun acc p => acc + (p.1 - ma) * (p.2 - mb)) s (a.zip b)
        = List.foldl (fun acc p => acc + (p.1 - mb) * (p.2 - ma)) s (b.zip a) := by
  induction a with
  | nil =>
    intro b ma mb s
    cases b <;> simp
  | cons x xs ih =>
    intro b ma mb s
    cases b with
    | nil => simp
    | cons y ys =>
      simp only [List.zip_cons_cons, List.foldl_cons]
      rw [mul_comm]
      exact ih ys ma mb _

/-- C10: `covariance` is symmetric in its two arguments in exact
arithmetic — the validity check and the accumulated sum are both invariant
under swapping the inputs (whatever states the two calls start from). -/
theorem covariance_symm (x y : Option (List ℚ)) (st su : State) :
    (covariance x y st).1 = (covariance y x su).1 := by
  cases x with
  | none =>
    cases y with
    | none => rfl
    | some b => rfl
  | some a =>
    cases y with
    | none => rfl
    | some b =>
      by_cases hlen : a.length = b.length
      · by_cases h2 : a.length < 2
        · have g1 : a.length < 2 ∨ a.length ≠ b.length := Or.inl h2
          have g2 : b.length < 2 ∨ b.length ≠ a.length := by omega
          simp only [covariance]
          rw [if_pos g1, if_pos g2]
        · have g1 : ¬(a.length < 2 ∨ a.length ≠ b.length) := by omega
          have g2 : ¬(b.length < 2 ∨ b.length ≠ a.length) := by omega
          have ha : a ≠ [] := by
            intro hnil
            rw [hnil] at h2
            simp at h2
          have hb : b ≠ [] := by
            intro hnil
            have hb0 : b.length = 0 := by rw [hnil]; rfl
            omega
          simp only [covariance]
          rw [if_neg g1, if_neg g2]
          simp only [mean_of_setData a ha, mean_of_setData b hb, mean_preserves_data]
          rw [zip_centered_symm, hlen]
      · have g1 : a.length < 2 ∨ a.length ≠ b.length := Or.inr hlen
        have g2 : b.length < 2 ∨ b.length ≠ a.length := by omega
        simp only [covariance]
        rw [if_pos g1, if_pos g2]

/-- C10 at a concrete pair of unequal-content inputs, as a sanity check of
the symmetry statement. -/
theorem covariance_symm_check :
    (covariance (some [1, 2]) (some [3, 5]) initState).1
      = (covariance (some [3, 5]) (some [1, 2]) initState).1 :=
  covariance_symm (some [1, 2]) (some [3, 5]) initState initState

/-- C1: the caching contract fails for `min` and `max`.  After assigning
[1, 2] and querying each statistic once, the claim says every queried
statistic's invalidation flag is false; but the source never clears
`_minInvalidated` or `_maxInvalidated`, so both remain true (and every
later `min`/`max` query recomputes), while `mean` does clear its flag. -/
theorem min_max_flag_never_cleared :
    ((DataStats.min (setData (some [1, 2]) initState)).2)._minInvalidated = true
  ∧ ((DataStats.max (setData (some [1, 2]) initState)).2)._maxInvalidated = true
  ∧ (DataStats.min (setData (some [1, 2]) initState)).1 = 1
  ∧ (DataStats.max (setData (some [1, 2]) initState)).1 = 2
  ∧ ((mean (setData (some [1, 2]) initState)).2)._meanInvalidated = false := by
  refine ⟨?_, ?_, ?_, ?_, ?_⟩
  · norm_num [DataStats.min, setData, initState]
  · norm_num [DataStats.max, setData, initState]
  · norm_num [DataStats.min, setData, initState, jsMaxValue]
  · norm_num [DataStats.max, setData, initState, jsMinValue]
  · norm_num [mean, setData, initState]

/-- C3: the five-number summary and the `max` getter disagree on the
all-negative sample [-2, -1]: the summary's last element is the true
maximum -1, but the `max` scan is seeded with `Number.MIN_VALUE` = 2^(-1074)
(a positive number), which no negative datum exceeds, so `max` returns
2^(-1074) ≠ -1.  (The first element does equal `min` here.) -/
theorem fiveNumbers_max_mismatch :
    fiveNumbers (setData (some [-2, -1]) initState) = [-2, -2, -3/2, -1, -1]
  ∧ (DataStats.max (setData (some [-2, -1]) initState)).1 = jsMinValue
  ∧ jsMinValue ≠ (-1 : ℚ)
  ∧ (DataStats.min (setData (some [-2, -1]) initState)).1 = -2 := by
  refine ⟨?_, ?_, ?_, ?_⟩
  · norm_num [fiveNumbers, setData, initState, sortAsc, insertAsc, isEven]
  · norm_num [DataStats.max, setData, initState, jsMinValue]
  · norm_num [jsMinValue]
  · norm_num [DataStats.min, setData, initState, jsMaxValue]

/-- C4: quartiles of the sorted sample [1, 2, 3, 4, 5].  The claim's CDF
array would be f = [0, 1/4, 1/2, 3/4, 1] and the result [1, 2, 3, 4, 5];
but `new Array<number>(0.0)` is an EMPTY array (0.0 is a length), so f's
slot 0 is a hole and all interior slots are NaN, and every interior
quantile evaluates to NaN: the method returns [1, NaN, NaN, NaN, 5]. -/
theorem getQuantile_nan_interior :
    getQuantile (1 / 4) (setData (some [1, 2, 3, 4, 5]) initState)
      = [some 1, none, none, none, some 5] := by
  have hp : coerceP (1 / 4) = 1 / 4 := by norm_num [coerceP]
  have e0 : getQuantile (1 / 4) (setData (some [1, 2, 3, 4, 5]) initState) =
      ((List.range ((⌊(1 : ℚ) / coerceP (1 / 4)⌋).toNat - 1)).foldl
        (fun (acc : ℚ × List JSVal) (_ : ℕ) =>
          (acc.1 + coerceP (1 / 4),
            acc.2 ++ [quantLevel (quantFractions 5 (1 / (((5 : ℕ) : ℚ) - 1))) [1, 2, 3, 4, 5]
              ((⌊(acc.1 + coerceP (1 / 4)) * (((5 : ℕ) : ℚ) - 1)⌋).toNat)
              (acc.1 + coerceP (1 / 4))]))
        (0, [some 1])).2 ++ [some 5] := rfl
  rw [e0, hp]
  have hn3 : (⌊(1 : ℚ) / (1 / 4)⌋).toNat - 1 = 3 := by
    norm_num
    try decide
  rw [hn3]
  rw [show List.range 3 = [0, 1, 2] from rfl]
  simp only [List.foldl_cons, List.foldl_nil]
  have hr1 : (⌊((0 : ℚ) + 1 / 4) * (((5 : ℕ) : ℚ) - 1)⌋).toNat = 1 := by
    norm_num
    try decide
  have hr2 : (⌊((0 : ℚ) + 1 / 4 + 1 / 4) * (((5 : ℕ) : ℚ) - 1)⌋).toNat = 2 := by
    norm_num
    try decide
  have hr3 : (⌊((0 : ℚ) + 1 / 4 + 1 / 4 + 1 / 4) * (((5 : ℕ) : ℚ) - 1)⌋).toNat = 3 := by
    norm_num
    try decide
  rw [hr1, hr2, hr3]
  rfl

section ModeLemmas

/-- A fold of `scanStep` over entries none of which beat the running count
leaves the accumulator unchanged. -/
theorem scan_all_le (L : List (ℚ × ℕ)) :
    ∀ (c : ℤ) (m : ℚ), (∀ r ∈ L, (r.2 : ℤ) ≤ c) → L.foldl scanStep (c, m) = (c, m) := by
  induction L with
  | nil => intro c m _; rfl
  | cons p t ih =>
    intro c m h
    simp only [List.foldl_cons, scanStep]
    rw [if_neg (not_lt.mpr (h p (List.mem_cons_self p t)))]
    exact ih c m (fun r hr => h r (List.mem_cons_of_mem _ hr))

/-- When some entry beats the threshold, `firstMaxAbove` finds one. -/
theorem firstMaxAbove_isSome (L : List (ℚ × ℕ)) :
    ∀ c : ℤ, (∃ r ∈ L, c < (r.2 : ℤ)) → ∃ w, firstMaxAbove c L = some w := by
  induction L with
  | nil =>
    intro c h
    rcases h with ⟨r, hr, _⟩
    cases hr
  | cons p t ih =>
    intro c h
    by_cases hcond : c < (p.2 : ℤ) ∧ ∀ r ∈ t, r.2 ≤ p.2
    · exact ⟨p, by rw [firstMaxAbove, if_pos hcond]⟩
    · have hex : ∃ r ∈ t, Max.max c (p.2 : ℤ) < (r.2 : ℤ) := by
        by_cases hcp : c < (p.2 : ℤ)
        · push_neg at hcond
          rcases hcond hcp with ⟨r, hrt, hrp⟩
          refine ⟨r, hrt, ?_⟩
          rw [max_lt_iff]
          constructor
          · exact hcp.trans (by exact_mod_cast hrp)
          · exact_mod_cast hrp
        · rcases h with ⟨r, hr, hcr⟩
          rcases List.mem_cons.mp hr with rfl | hrt
          · exact absurd hcr hcp
          · refine ⟨r, hrt, ?_⟩
            rw [max_lt_iff]
            exact ⟨hcr, lt_of_le_of_lt (not_lt.mp hcp) hcr⟩
      rcases ih _ hex with ⟨w, hw⟩
      exact ⟨w, by rw [firstMaxAbove, if_neg hcond]; exact hw⟩

/-- Every nonempty count table has an entry of maximal count. -/
theorem exists_max_entry (t : List (ℚ × ℕ)) (h : t ≠ []) :
    ∃ w ∈ t, ∀ r ∈ t, r.2 ≤ w.2 := by
  induction t with
  | nil => exact absurd rfl h
  | cons p u ih =>
    cases u with
    | nil =>
      refine ⟨p, List.mem_cons_self p [], ?_⟩
      intro r hr
      rcases List.mem_cons.mp hr with rfl | hru
      · exact le_refl _
      · cases hru
    | cons q v =>
      rcases ih (by simp) with ⟨w, hw, hmax⟩
      by_cases hpw : w.2 ≤ p.2
      · refine ⟨p, List.mem_cons_self p _, ?_⟩
        intro r hr
        rcases List.mem_cons.mp hr with rfl | hru
        · exact le_refl _
        · exact le_trans (hmax r hru) hpw
      · refine ⟨w, List.mem_cons_of_mem _ hw, ?_⟩
        intro r hr
        rcases List.mem_cons.mp hr with rfl | hru
        · exact le_of_not_le hpw
        · exact hmax r hru

/-- Below every count of the list, `firstMaxAbove` is exactly `firstMax`. -/
theorem firstMaxAbove_eq_firstMax (L : List (ℚ × ℕ)) :
    ∀ c : ℤ, (∃ r ∈ L, c < (r.2 : ℤ)) → firstMaxAbove c L = firstMax L := by
  induction L with
  | nil => intro c _; rfl
  | cons p t ih =>
    intro c h
    by_cases hdom : ∀ r ∈ t, r.2 ≤ p.2
    · by_cases hcp : c < (p.2 : ℤ)
      · rw [firstMaxAbove, if_pos ⟨hcp, hdom⟩, firstMax, if_pos hdom]
      · exfalso
        rcases h with ⟨r, hr, hcr⟩
        rcases List.mem_cons.mp hr with rfl | hrt
        · exact hcp hcr
        · have h1 : (r.2 : ℤ) ≤ (p.2 : ℤ) := by exact_mod_cast hdom r hrt
          have h2 : (p.2 : ℤ) ≤ c := not_lt.mp hcp
          omega
    · have hne : t ≠ [] := by
        intro h0
        rw [h0] at hdom
        simp at hdom
      rcases exists_max_entry t hne with ⟨w, hwt, hwmax⟩
      have hpw : p.2 < w.2 := by
        push_neg at hdom
        rcases hdom with ⟨r, hrt, hrp⟩
        exact lt_of_lt_of_le hrp (hwmax r hrt)
      have hcw : Max.max c (p.2 : ℤ) < (w.2 : ℤ) := by
        rw [max_lt_iff]
        constructor
        · rcases h with ⟨r, hr, hcr⟩
          rcases List.mem_cons.mp hr with rfl | hrt
          · exact hcr.trans (by exact_mod_cast hpw)
          · exact lt_of_lt_of_le hcr (by exact_mod_cast hwmax r hrt)
        · exact_mod_cast hpw
      have hstep : firstMaxAbove c (p :: t) = firstMaxAbove (Max.max c (p.2 : ℤ)) t := by
        rw [firstMaxAbove, if_neg (fun hc => hdom hc.2)]
      rw [hstep, firstMax, if_neg hdom]
      exact ih _ ⟨w, hwt, hcw⟩

/-- The mode selection fold returns `parseInt` of the first
maximal-above-threshold entry, or the seed when there is none. -/
theorem scan_eq (L : List (ℚ × ℕ)) :
    ∀ (c : ℤ) (m : ℚ),
      (L.foldl scanStep (c, m)).2 =
        ((firstMaxAbove c L).map (fun w => ((jsTrunc w.1 : ℤ) : ℚ))).getD m := by
  induction L with
  | nil => intro c m; rfl
  | cons p t ih =>
    intro c m
    by_cases hcond : c < (p.2 : ℤ) ∧ ∀ r ∈ t, r.2 ≤ p.2
    · rw [firstMaxAbove, if_pos hcond]
      simp only [List.foldl_cons, scanStep]
      rw [if_pos hcond.1]
      rw [scan_all_le t _ _ (fun r hr => by exact_mod_cast hcond.2 r hr)]
      rfl
    · rw [firstMaxAbove, if_neg hcond]
      simp only [List.foldl_cons, scanStep]
      by_cases hcp : c < (p.2 : ℤ)
      · rw [if_pos hcp, max_eq_right hcp.le]
        have hex : ∃ r ∈ t, (p.2 : ℤ) < (r.2 : ℤ) := by
          push_neg at hcond
          rcases hcond hcp with ⟨r, hrt, hrp⟩
          exact ⟨r, hrt, by exact_mod_cast hrp⟩
        rcases firstMaxAbove_isSome t _ hex with ⟨w, hw⟩
        rw [ih, hw]
        rfl
      · rw [if_neg hcp, max_eq_left (not_lt.mp hcp)]
        exact ih c m

/-- One counting step never empties the table. -/
theorem countInsert_ne_nil (h : List (ℚ × ℕ)) (x : ℚ) : countInsert h x ≠ [] := by
  unfold countInsert
  split
  case isTrue hany =>
    intro hmap
    rw [List.map_eq_nil_iff] at hmap
    rw [hmap] at hany
    simp at hany
  case isFalse _ =>
    simp

/-- The counting fold keeps a nonempty table nonempty. -/
theorem foldl_countInsert_ne_nil (l : List ℚ) :
    ∀ init : List (ℚ × ℕ), init ≠ [] → l.foldl countInsert init ≠ [] := by
  induction l with
  | nil => intro init h; exact h
  | cons a l' ih =>
    intro init _
    exact ih (countInsert init a) (countInsert_ne_nil init a)

/-- A nonempty sample yields a nonempty count table. -/
theorem buildHash_ne_nil (l : List ℚ) (h : l ≠ []) : buildHash l ≠ [] := by
  cases l with
  | nil => exact absurd rfl h
  | cons a l' =>
    show List.foldl countInsert [] (a :: l') ≠ []
    rw [List.foldl_cons]
    exact foldl_countInsert_ne_nil l' _ (countInsert_ne_nil [] a)

/-- Ascending pair insertion grows the length by one. -/
theorem insertPairAsc_length (x : ℚ × ℕ) (l : List (ℚ × ℕ)) :
    (insertPairAsc x l).length = l.length + 1 := by
  induction l with
  | nil => rfl
  | cons y ys ih =>
    rw [insertPairAsc]
    split
    · rfl
    · simp only [List.length_cons, ih]

/-- Sorting pairs preserves the length. -/
theorem sortPairs_length (l : List (ℚ × ℕ)) : (sortPairs l).length = l.length := by
  induction l with
  | nil => rfl
  | cons x xs ih =>
    show (insertPairAsc x (sortPairs xs)).length = _
    rw [insertPairAsc_length, ih, List.length_cons]

/-- The `for..in` enumeration visits exactly the table's entries. -/
theorem iterOrder_length (h : List (ℚ × ℕ)) : (iterOrder h).length = h.length := by
  have hperm := List.filter_append_perm (fun p => isArrayIndex p.1) h
  calc (iterOrder h).length
      = (sortPairs (h.filter (fun p => isArrayIndex p.1))).length
        + (h.filter (fun p => !isArrayIndex p.1)).length := List.length_append _ _
    _ = (h.filter (fun p => isArrayIndex p.1)).length
        + (h.filter (fun p => !isArrayIndex p.1)).length := by rw [sortPairs_length]
    _ = (h.filter (fun p => isArrayIndex p.1) ++ h.filter (fun p => !isArrayIndex p.1)).length :=
        (List.length_append _ _).symm
    _ = h.length := hperm.length_eq

/-- The enumeration of a nonempty table is nonempty. -/
theorem iterOrder_ne_nil (h : List (ℚ × ℕ)) (hne : h ≠ []) : iterOrder h ≠ [] := by
  intro h0
  have hl := iterOrder_length h
  rw [h0] at hl
  simp at hl
  exact hne (List.length_eq_zero.mp hl.symm)

/-- The entry `firstMax` selects belongs to the table. -/
theorem firstMax_mem (L : List (ℚ × ℕ)) :
    ∀ w, firstMax L = some w → w ∈ L := by
  induction L with
  | nil => intro w hw; cases hw
  | cons p t ih =>
    intro w hw
    rw [firstMax] at hw
    split at hw
    · cases hw
      exact List.mem_cons_self _ _
    · exact List.mem_cons_of_mem _ (ih w hw)

/-- The entry `firstMax` selects has maximal count. -/
theorem firstMax_le (L : List (ℚ × ℕ)) :
    ∀ w, firstMax L = some w → ∀ r ∈ L, r.2 ≤ w.2 := by
  induction L with
  | nil => intro w hw; cases hw
  | cons p t ih =>
    intro w hw r hr
    rw [firstMax] at hw
    split at hw
    case isTrue hdom =>
      cases hw
      rcases List.mem_cons.mp hr with rfl | hrt
      · exact le_refl _
      · exact hdom r hrt
    case isFalse hdom =>
      rcases List.mem_cons.mp hr with rfl | hrt
      · push_neg at hdom
        rcases hdom with ⟨r', hr't, hr'p⟩
        exact le_trans hr'p.le (ih w hw r' hr't)
      · exact ih w hw r hrt

end ModeLemmas

/-- C5 counterexample: on the sample [5, 3, 3, 5] the counts tie at 2 and
the value 5 occurs first, so the claim (first-insertion tie-break, the
value itself reported) predicts 5 — formalized by `firstMax` over the
insertion-ordered table `buildHash` —, but `mode` returns 3, because
`for..in` enumerates the integer keys in ascending numeric order.  And on
the sample [5/2] the claim predicts the value 5/2 itself, but `mode`
returns `parseInt` of its string, 2. -/
theorem mode_claim_counterexample :
    (mode (setData (some [5, 3, 3, 5]) initState)).1 = 3
  ∧ firstMax (buildHash [5, 3, 3, 5]) = some (5, 2)
  ∧ (3 : ℚ) ≠ 5
  ∧ (mode (setData (some [5 / 2]) initState)).1 = 2
  ∧ (2 : ℚ) ≠ 5 / 2 := by
  refine ⟨?_, by decide, by norm_num, ?_, by norm_num⟩
  · decide
  · norm_num [mode, modeOf, setData, initState, buildHash, countInsert, iterOrder,
      sortPairs, isArrayIndex, scanStep, jsTrunc, Rat.den]

/-- C5 amended: for the empty sample `mode` returns 0; for a nonempty
sample with its cache invalidated, `mode` returns `parseInt` (truncation
toward zero, for keys printed in plain decimal notation) of the winning
table entry, where the winner is the entry of maximal count and a tie for
the maximum goes to the entry appearing first in JavaScript object key
iteration order (`iterOrder`: array-index keys ascending, then the rest in
first-insertion order). -/
theorem mode_amended :
    (∀ st : State, st._modeInvalidated = true → st._data = [] → (mode st).1 = 0)
  ∧ (∀ st : State, st._modeInvalidated = true → st._data ≠ [] →
      ∃ w, firstMax (iterOrder (buildHash st._data)) = some w
        ∧ w ∈ iterOrder (buildHash st._data)
        ∧ (∀ r ∈ iterOrder (buildHash st._data), r.2 ≤ w.2)
        ∧ (mode st).1 = ((jsTrunc w.1 : ℤ) : ℚ)) := by
  constructor
  · intro st hflag hdata
    simp [mode, hflag, hdata]
  · intro st hflag hne
    have hLne : iterOrder (buildHash st._data) ≠ [] :=
      iterOrder_ne_nil _ (buildHash_ne_nil _ hne)
    have hex : ∃ r ∈ iterOrder (buildHash st._data), (-1 : ℤ) < (r.2 : ℤ) := by
      cases hL : iterOrder (buildHash st._data) with
      | nil => exact absurd hL hLne
      | cons p t =>
        exact ⟨p, List.mem_cons_self p t, by omega⟩
    rcases firstMaxAbove_isSome _ (-1) hex with ⟨w, hw⟩
    have heq := firstMaxAbove_eq_firstMax _ (-1) hex
    have hfm : firstMax (iterOrder (buildHash st._data)) = some w := by
      rw [← heq]
      exact hw
    refine ⟨w, hfm, firstMax_mem _ w hfm, firstMax_le _ w hfm, ?_⟩
    have h0 : ¬st._data.length = 0 := fun h => hne (List.length_eq_zero.mp h)
    unfold mode
    rw [if_pos hflag, if_neg h0]
    show modeOf st._mode st._data = _
    unfold modeOf
    rw [scan_eq, hw]
    rfl

/-- C5 amended, witness: the empty sample and the tie sample [5, 3, 3, 5]
(whose winner under the amended rule is the entry (3, 2)). -/
theorem mode_amended_witness :
    (mode initState).1 = 0
  ∧ ∃ w, firstMax (iterOrder (buildHash
        (setData (some [5, 3, 3, 5]) initState)._data)) = some w
      ∧ w ∈ iterOrder (buildHash (setData (some [5, 3, 3, 5]) initState)._data)
      ∧ (∀ r ∈ iterOrder (buildHash (setData (some [5, 3, 3, 5]) initState)._data),
          r.2 ≤ w.2)
      ∧ (mode (setData (some [5, 3, 3, 5]) initState)).1 = ((jsTrunc w.1 : ℤ) : ℚ) :=
  ⟨mode_amended.1 initState rfl rfl,
    mode_amended.2 (setData (some [5, 3, 3, 5]) initState) rfl (by decide)⟩

end DataStats
